import Mathlib

/-!
# Verification of the cascade / hierarchy / tag-search core

Shallow embedding of the database design in this repository.

The authoritative code is the SQLite schema with its cascade triggers
(`src/unnamed/part_001`), the recursive hierarchy CTEs and the tag queries
(`src/unnamed/part_000`, `src/postgres/README.md`, `src/postgres/test_queries.sql`).

Modelling conventions:
* Each SQL table becomes a `List` of row structures inside `Store`.
* The column `deleted_at TIMESTAMP` is observed by every query and trigger of
  the repository only through the predicates `deleted_at IS NULL` /
  `deleted_at IS NOT NULL`; it is therefore embedded as `alive : Bool`
  (`alive = true` iff `deleted_at IS NULL`).
* `DOUBLE PRECISION` payloads (`value_numeric`) are carried opaquely as
  strings: no claim inspects them.
* The recursive `AFTER UPDATE` triggers fire exactly when a row makes a
  genuine transition (`WHEN NEW.deleted_at IS NOT NULL AND OLD.deleted_at IS
  NULL` and symmetrically), and every cascading `UPDATE` carries a
  `deleted_at IS NULL` (resp. `IS NOT NULL`) filter, so a row is cascaded
  into at most once per invocation and the set of node rows reached is the
  closure of the root under "child whose current alive state differs from the
  target".  That closure is computed below by iterating a step function
  (`growStep`) a sufficient number of times; the per-row trigger firings
  commute (each row flips at most once, ownership is single-parent /
  single-owner, and re-reached edges are filtered out), so the bulk
  formulation has the same final store as the row-at-a-time trigger
  execution.
-/

/-- A row of the `nodes` table (`src/unnamed/part_001`, lines 12-19). -/
structure NodeRow where
  id : String
  typ : String
  parent_id : Option String
  name : String
  description : String
  alive : Bool
deriving DecidableEq, Repr

/-- A row of the `ports` table (lines 21-28). -/
structure PortRow where
  id : String
  node_id : String
  port_type : String
  name : String
  description : String
  alive : Bool
deriving DecidableEq, Repr

/-- A row of the `port_values` table (lines 30-41). -/
structure PortValueRow where
  id : String
  port_id : String
  timestamp : Nat
  value_numeric : Option String
  value_text : Option String
  value_boolean : Option Bool
  value_json : Option String
  is_synced : Bool
  last_synced : Option Nat
  alive : Bool
deriving DecidableEq, Repr

/-- A row of the `edges` table (lines 43-49). -/
structure EdgeRow where
  id : String
  from_port_id : String
  to_port_id : String
  description : String
  alive : Bool
deriving DecidableEq, Repr

/-- A row of the `tags` table (lines 51-57); identity is
`(node_id, tag_key, tag_value)`. -/
structure TagRow where
  node_id : String
  tag_key : String
  tag_value : String
  alive : Bool
deriving DecidableEq, Repr

/-- The five tables of the schema. -/
structure Store where
  nodes : List NodeRow
  ports : List PortRow
  port_values : List PortValueRow
  edges : List EdgeRow
  tags : List TagRow
deriving DecidableEq, Repr

/-- `parent_id = NEW.id` test used by the node-cascade triggers, lifted to a
set `acc` of already-transitioned node ids. -/
def parentIn (acc : List String) (n : NodeRow) : Bool :=
  match n.parent_id with
  | some p => decide (p ∈ acc)
  | none => false

/-- One round of the recursive node trigger
(`cascade_soft_delete_nodes_on_nodes_delete` /
`cascade_restore_nodes_on_nodes_restore`): extend the set `acc` of
transitioned node ids by every child of a member that passes the trigger's
alive filter `keep` (the `deleted_at IS NULL` / `IS NOT NULL` clause). -/
def growStep (s : Store) (keep : NodeRow → Bool) (acc : List String) : List String :=
  acc ++ (s.nodes.filter
    (fun n => keep n && parentIn acc n && !(decide (n.id ∈ acc)))).map (·.id)

/-- Iterate `growStep` to its closure; `s.nodes.length` rounds suffice since
each round that changes anything transitions at least one further node row. -/
def grow (s : Store) (keep : NodeRow → Bool) (init : List String) : List String :=
  (growStep s keep)^[s.nodes.length] init

/-- All node ids reachable from `nid` through child chains (the ownership
subtree, ignoring alive states).  `nid` itself is included. -/
def subtreeIds (s : Store) (nid : String) : List String :=
  grow s (fun _ => true) [nid]

/-- Ids of the ports owned by some node of the subtree of `nid`. -/
def subtreePortIds (s : Store) (nid : String) : List String :=
  (s.ports.filter (fun p => decide (p.node_id ∈ subtreeIds s nid))).map (·.id)

/-- Node ids reached from `nid` through child chains every member of which
still has `alive ≠ target` — exactly the rows the recursive node trigger
updates, because its cascading `UPDATE` is filtered by
`deleted_at IS NULL` (delete) / `IS NOT NULL` (restore). -/
def liveChainIds (s : Store) (nid : String) (target : Bool) : List String :=
  grow s (fun n => n.alive == !target) [nid]

/-- The node rows transitioned by one `SetAlive` invocation: empty when the
root row is absent or already at `target` (the trigger's `WHEN` clause fails
and nothing cascades), otherwise the filtered child-chain closure. -/
def cascadeSet (s : Store) (nid : String) (target : Bool) : List String :=
  match s.nodes.find? (fun n => decide (n.id = nid)) with
  | some n => if n.alive = !target then liveChainIds s nid target else []
  | none => []

/-- Apply the cascade of all triggers for the transitioned node set `R`:
* `cascade_*_nodes_on_nodes_*`  : node rows with id in `R` get `target`;
* `cascade_*_ports_on_nodes_*`  : ports owned by a node of `R`;
* `cascade_*_port_values_on_ports_*` and `cascade_*_edges_on_ports_*` fire
  only for ports that actually transition (`T`), mirroring their `WHEN`
  clause: a port already at `target` does not cascade into its values/edges;
* `cascade_*_tags_on_nodes_*`   : tags of a node of `R`. -/
def applyCascade (s : Store) (R : List String) (target : Bool) : Store :=
  let T : List String :=
    (s.ports.filter (fun p => decide (p.node_id ∈ R) && (p.alive == !target))).map (·.id)
  { nodes := s.nodes.map (fun n => if n.id ∈ R then { n with alive := target } else n)
    ports := s.ports.map (fun p => if p.node_id ∈ R then { p with alive := target } else p)
    port_values := s.port_values.map
      (fun v => if v.port_id ∈ T then { v with alive := target } else v)
    edges := s.edges.map
      (fun e => if e.from_port_id ∈ T ∨ e.to_port_id ∈ T then { e with alive := target } else e)
    tags := s.tags.map (fun t => if t.node_id ∈ R then { t with alive := target } else t) }

/-- `SetAlive(nid, target)`: the statement `UPDATE nodes SET deleted_at = …
WHERE id = nid` together with every trigger it recursively fires.  The root
row itself is written unconditionally by the statement; the cascade happens
only on a genuine transition (`cascadeSet`). -/
def setAlive (s : Store) (nid : String) (target : Bool) : Store :=
  let s' := applyCascade s (cascadeSet s nid target) target
  { s' with nodes := s'.nodes.map (fun n => if n.id = nid then { n with alive := target } else n) }

/-- `UPDATE ports SET deleted_at = … WHERE id = pid` together with the two
port-level triggers (`cascade_soft_delete_port_values_on_ports_delete`,
`cascade_soft_delete_edges_on_ports_delete`, lines 89-105): they fire only
when the port row transitions from alive to deleted. -/
def softDeletePort (s : Store) (pid : String) : Store :=
  let fire := s.ports.any (fun p => decide (p.id = pid) && p.alive)
  let s1 := { s with
    ports := s.ports.map (fun q => if q.id = pid then { q with alive := false } else q) }
  if fire then
    { s1 with
      port_values := s1.port_values.map
        (fun v => if v.port_id = pid ∧ v.alive = true then { v with alive := false } else v)
      edges := s1.edges.map
        (fun e => if (e.from_port_id = pid ∨ e.to_port_id = pid) ∧ e.alive = true then
            { e with alive := false } else e) }
  else s1

/-- Output row of the `nodes_hierarchy` recursive CTE:
`(id, name, type, description, level)`. -/
structure HierRow where
  id : String
  name : String
  typ : String
  description : String
  level : Nat
deriving DecidableEq, Repr

/-- Project a node row to a CTE output row at a given level. -/
def hierRowOf (n : NodeRow) (lvl : Nat) : HierRow :=
  ⟨n.id, n.name, n.typ, n.description, lvl⟩

/-- One recursive step of the CTE: `JOIN nodes ON nodes.parent_id =
nodes_hierarchy.id`, labelling children with `level + 1`.  There is no
`deleted_at` condition in either variant of the query. -/
def hierChildren (s : Store) (frontier : List HierRow) : List HierRow :=
  frontier.flatMap (fun r =>
    (s.nodes.filter (fun n => decide (n.parent_id = some r.id))).map
      (fun n => hierRowOf n (r.level + 1)))

/-- Run `k` recursive rounds of the CTE, collecting every generated row. -/
def hierExpand (s : Store) : Nat → List HierRow → List HierRow
  | 0, _ => []
  | k + 1, frontier =>
    let next := hierChildren s frontier
    next ++ hierExpand s k next

/-- Base query of both CTE variants: the row of `nodes` whose id is the root,
at level 0 (no alive condition). -/
def hierBase (s : Store) (rootId : String) : List HierRow :=
  (s.nodes.filter (fun n => decide (n.id = rootId))).map (fun n => hierRowOf n 0)

/-- `GetSubtree` as the SQLite query (`src/unnamed/part_000`, lines 43-55):
the recursion is guarded by `WHERE level <= D` on the *frontier* row, so a
frontier row at level `D` still produces children at level `D + 1`:
`D + 1` recursive rounds run. -/
def getSubtreeSqlite (s : Store) (rootId : String) (D : Nat) : List HierRow :=
  hierBase s rootId ++ hierExpand s (D + 1) (hierBase s rootId)

/-- `GetSubtree` as the PostgreSQL query (`src/postgres/README.md`,
lines 74-86): the recursion is guarded by `WHERE nh.level < D`, so only `D`
recursive rounds run and levels stop at `D`. -/
def getSubtreePostgres (s : Store) (rootId : String) (D : Nat) : List HierRow :=
  hierBase s rootId ++ hierExpand s D (hierBase s rootId)

/-- The multi-tag AND search (`src/postgres/README.md`, lines 265-273):
`SELECT node_id FROM tags WHERE OR over the (key,value) predicates GROUP BY
node_id HAVING COUNT(DISTINCT tag_key) = number of predicates`.  Neither this
query nor the single-tag query of `src/unnamed/part_000` (lines 63-69)
filters on `deleted_at`. -/
def findByTagsAnd (s : Store) (preds : List (String × String)) : List String :=
  let matched := s.tags.filter
    (fun t => preds.any (fun kv => decide (t.tag_key = kv.1) && decide (t.tag_value = kv.2)))
  ((matched.map (·.node_id)).dedup).filter
    (fun nid =>
      ((matched.filter (fun t => decide (t.node_id = nid))).map (·.tag_key)).dedup.length
        = preds.length)

/-- The only write-time check the schema performs on a parent assignment
(`UPDATE nodes SET parent_id = …`): the foreign key
`parent_id REFERENCES nodes(id)` — the referenced id must exist.  No cycle
check of any kind appears in the schema or the triggers. -/
def setParent (s : Store) (nid pid : String) : Option Store :=
  if s.nodes.any (fun n => decide (n.id = pid)) then
    some { s with nodes := s.nodes.map (fun n => if n.id = nid then { n with parent_id := some pid } else n) }
  else none

/-- `INSERT INTO nodes …` with the checks the schema declares: primary-key
uniqueness of `id` and the foreign key on `parent_id`.  This is the only
parent assignment the populate path (`src/populate.go`) ever performs. -/
def insertNode (s : Store) (n : NodeRow) : Option Store :=
  if (s.nodes.all (fun m => !(decide (m.id = n.id)))) &&
     (match n.parent_id with
      | some p => s.nodes.any (fun m => decide (m.id = p))
      | none => true) then
    some { s with nodes := s.nodes ++ [n] }
  else none

/-- Acyclicity of the `parent_id` chain: the parent relation embeds into a
well-founded ranking, i.e. no node can be its own (transitive) parent. -/
def Acyclic (s : Store) : Prop :=
  ∃ rank : String → Nat,
    ∀ n ∈ s.nodes, ∀ p, n.parent_id = some p → rank p < rank n.id

/-! ## Concrete example stores used by witnesses and counterexamples -/

/-- A fully alive two-level store: network `a` with device child `b`, a port
on each, a value, one edge across and a tag on each node. -/
def sAll : Store :=
  { nodes := [⟨"a", "network", none, "A", "", true⟩, ⟨"b", "device", some "a", "B", "", true⟩]
    ports := [⟨"pa", "a", "input", "PA", "", true⟩, ⟨"pb", "b", "output", "PB", "", true⟩]
    port_values := [⟨"va", "pa", 5, none, some "20.5", none, none, false, none, true⟩]
    edges := [⟨"e1", "pa", "pb", "link", true⟩]
    tags := [⟨"a", "category", "medium", true⟩, ⟨"b", "location", "north", true⟩] }

/-- A chain `a → b → g → hh` in which `b` and `hh` are already soft-deleted
while `a` and `g` are alive. -/
def sPrune : Store :=
  { nodes := [⟨"a", "network", none, "A", "", true⟩, ⟨"b", "device", some "a", "B", "", false⟩,
              ⟨"g", "point", some "b", "G", "", true⟩, ⟨"hh", "point", some "g", "H", "", false⟩]
    ports := [], port_values := [], edges := [], tags := [] }

/-- A five-node parent chain `a0 → a1 → a2 → a3 → a4`, all alive. -/
def sChain : Store :=
  { nodes := [⟨"a0", "network", none, "", "", true⟩, ⟨"a1", "device", some "a0", "", "", true⟩,
              ⟨"a2", "point", some "a1", "", "", true⟩, ⟨"a3", "point", some "a2", "", "", true⟩,
              ⟨"a4", "point", some "a3", "", "", true⟩]
    ports := [], port_values := [], edges := [], tags := [] }

/-- Node `x` carries only soft-deleted tags `(k1,v1)`, `(k2,v2)`; node `y`
carries two alive tags with the same key `k`. -/
def sTagCex : Store :=
  { nodes := [⟨"x", "device", none, "X", "", true⟩, ⟨"y", "device", none, "Y", "", true⟩]
    ports := [], port_values := [], edges := []
    tags := [⟨"x", "k1", "v1", false⟩, ⟨"x", "k2", "v2", false⟩,
             ⟨"y", "k", "a", true⟩, ⟨"y", "k", "b", true⟩] }

/-- Node `x` carries alive tags `(k1,v1)` and `(k2,v2)`; node `z` carries
only `(k1,v1)`. -/
def sTagW : Store :=
  { nodes := [⟨"x", "device", none, "X", "", true⟩, ⟨"z", "device", none, "Z", "", true⟩]
    ports := [], port_values := [], edges := []
    tags := [⟨"x", "k1", "v1", true⟩, ⟨"x", "k2", "v2", true⟩, ⟨"z", "k1", "v1", true⟩] }

/-- Two unrelated root nodes whose ports are joined by one edge. -/
def sEdgeW : Store :=
  { nodes := [⟨"n1", "device", none, "N1", "", true⟩, ⟨"n2", "device", none, "N2", "", true⟩]
    ports := [⟨"p1", "n1", "output", "P1", "", true⟩, ⟨"p2", "n2", "input", "P2", "", true⟩]
    port_values := [], edges := [⟨"e1", "p1", "p2", "cross", true⟩], tags := [] }

/-- An entirely soft-deleted two-node subtree with a dead port and tag. -/
def sDead : Store :=
  { nodes := [⟨"a", "network", none, "A", "", false⟩, ⟨"b", "device", some "a", "B", "", false⟩]
    ports := [⟨"pa", "a", "input", "PA", "", false⟩]
    port_values := [], edges := [], tags := [⟨"a", "category", "low", false⟩] }

/-- One node owning two sibling ports `p1`, `p2`, each with a value, joined
by one edge, everything alive. -/
def sPortW : Store :=
  { nodes := [⟨"n1", "device", none, "N1", "", true⟩]
    ports := [⟨"p1", "n1", "input", "P1", "", true⟩, ⟨"p2", "n1", "output", "P2", "", true⟩]
    port_values := [⟨"v1", "p1", 1, none, none, none, none, false, none, true⟩,
                    ⟨"v2", "p2", 2, none, none, none, none, false, none, true⟩]
    edges := [⟨"e1", "p1", "p2", "loop", true⟩]
    tags := [⟨"n1", "category", "high", true⟩] }

/-- A single root node `a` with no parent. -/
def sSelf : Store :=
  { nodes := [⟨"a", "network", none, "A", "", true⟩]
    ports := [], port_values := [], edges := [], tags := [] }

/-- A fresh device row to be inserted under `a`. -/
def rowB : NodeRow := ⟨"b", "device", some "a", "B", "", true⟩

/-- The store obtained from `sSelf` by pointing `a.parent_id` at `a` itself. -/
def sSelfCycle : Store :=
  { nodes := [⟨"a", "network", some "a", "A", "", true⟩]
    ports := [], port_values := [], edges := [], tags := [] }

/-- The store obtained from `sSelf` by inserting `rowB` under `a`. -/
def sSelfB : Store :=
  { nodes := [⟨"a", "network", none, "A", "", true⟩, ⟨"b", "device", some "a", "B", "", true⟩]
    ports := [], port_values := [], edges := [], tags := [] }

/-- A soft-deleted parent `p` with a soft-deleted child `c`. -/
def sDeadParent : Store :=
  { nodes := [⟨"p", "network", none, "P", "", false⟩, ⟨"c", "device", some "p", "C", "", false⟩]
    ports := [], port_values := [], edges := [], tags := [] }

/-! ## Generic list helpers -/

/-- Filtering a mapped list is mapping the filter of the composed predicate. -/
theorem filterOfMap {α β : Type} (f : α → β) (p : β → Bool) (l : List α) :
    (l.map f).filter p = (l.filter (fun x => p (f x))).map f := by
  induction l with
  | nil => rfl
  | cons a tl ih =>
    by_cases h : p (f a) = true
    · simp [List.filter_cons, h, ih]
    · simp only [Bool.not_eq_true] at h
      simp [List.filter_cons, h, ih]

/-- `find?` over a mapped list, when the predicate factors through the map. -/
theorem findOfMap {α β : Type} (f : α → β) (p : β → Bool) (q : α → Bool) (l : List α)
    (h : ∀ x, p (f x) = q x) :
    (l.map f).find? p = (l.find? q).map f := by
  induction l with
  | nil => rfl
  | cons a tl ih =>
    by_cases ha : q a = true
    · simp [List.find?_cons, h, ha]
    · simp only [Bool.not_eq_true] at ha
      simp [List.find?_cons, h, ha, ih]

/-- A first witness for an existential over a list. -/
theorem findOfExists {α : Type} (p : α → Bool) (l : List α) (h : ∃ x ∈ l, p x = true) :
    ∃ y, l.find? p = some y ∧ y ∈ l ∧ p y = true := by
  induction l with
  | nil => simp at h
  | cons a tl ih =>
    by_cases ha : p a = true
    · exact ⟨a, by simp [List.find?_cons, ha], List.mem_cons_self a tl, ha⟩
    · simp only [Bool.not_eq_true] at ha
      obtain ⟨x, hx, hpx⟩ := h
      rcases List.mem_cons.mp hx with rfl | hx'
      · rw [ha] at hpx; exact absurd hpx (by simp)
      · obtain ⟨y, hy, hmem, hpy⟩ := ih ⟨x, hx', hpx⟩
        exact ⟨y, by simp [List.find?_cons, ha, hy], List.mem_cons_of_mem a hmem, hpy⟩

/-! ## Row-update helpers -/

theorem nodeRow_update_self (n : NodeRow) (b : Bool) (h : n.alive = b) :
    ({ n with alive := b } : NodeRow) = n := by
  cases n; subst h; rfl

theorem portRow_update_self (p : PortRow) (b : Bool) (h : p.alive = b) :
    ({ p with alive := b } : PortRow) = p := by
  cases p; subst h; rfl

theorem valueRow_update_self (v : PortValueRow) (b : Bool) (h : v.alive = b) :
    ({ v with alive := b } : PortValueRow) = v := by
  cases v; subst h; rfl

theorem edgeRow_update_self (e : EdgeRow) (b : Bool) (h : e.alive = b) :
    ({ e with alive := b } : EdgeRow) = e := by
  cases e; subst h; rfl

theorem tagRow_update_self (t : TagRow) (b : Bool) (h : t.alive = b) :
    ({ t with alive := b } : TagRow) = t := by
  cases t; subst h; rfl

/-! ## Closure lemmas for the trigger cascade -/

theorem subset_growStep (s : Store) (keep : NodeRow → Bool) (acc : List String) :
    acc ⊆ growStep s keep acc := fun _ hx => List.mem_append_left _ hx

theorem growStep_mono (s : Store) {keep keep' : NodeRow → Bool}
    (hk : ∀ n, keep n = true → keep' n = true) {acc acc' : List String}
    (hs : acc ⊆ acc') : growStep s keep acc ⊆ growStep s keep' acc' := by
  intro x hx
  rcases List.mem_append.mp hx with hx | hx
  · exact List.mem_append_left _ (hs hx)
  · obtain ⟨n, hn, rfl⟩ := List.mem_map.mp hx
    have hcond := List.of_mem_filter hn
    have hnmem := List.mem_of_mem_filter hn
    simp only [Bool.and_eq_true, Bool.not_eq_true', decide_eq_false_iff_not] at hcond
    obtain ⟨⟨hkeep, hpar⟩, _⟩ := hcond
    by_cases hmem : n.id ∈ acc'
    · exact List.mem_append_left _ hmem
    · refine List.mem_append_right _ (List.mem_map.mpr ⟨n, List.mem_filter.mpr ⟨hnmem, ?_⟩, rfl⟩)
      have hpar' : parentIn acc' n = true := by
        unfold parentIn at hpar ⊢
        cases hp : n.parent_id with
        | none => rw [hp] at hpar; exact absurd hpar (by simp)
        | some q =>
          rw [hp] at hpar
          simp only [decide_eq_true_eq] at hpar ⊢
          exact hs hpar
      simp [hk n hkeep, hpar', hmem]

theorem iterate_growStep_mono (s : Store) {keep keep' : NodeRow → Bool}
    (hk : ∀ n, keep n = true → keep' n = true) (m : Nat) :
    ∀ {acc acc' : List String}, acc ⊆ acc' →
      (growStep s keep)^[m] acc ⊆ (growStep s keep')^[m] acc' := by
  induction m with
  | zero => intro acc acc' hs; simpa using hs
  | succ m ih =>
    intro acc acc' hs
    rw [Function.iterate_succ_apply, Function.iterate_succ_apply]
    exact ih (growStep_mono s hk hs)

theorem subset_iterate_growStep (s : Store) (keep : NodeRow → Bool) (m : Nat) :
    ∀ acc : List String, acc ⊆ (growStep s keep)^[m] acc := by
  induction m with
  | zero => intro acc; simp
  | succ m ih =>
    intro acc
    rw [Function.iterate_succ_apply]
    exact List.Subset.trans (subset_growStep s keep acc) (ih (growStep s keep acc))

theorem iterate_growStep_le (s : Store) (keep : NodeRow → Bool) {j m : Nat}
    (h : j ≤ m) (acc : List String) :
    (growStep s keep)^[j] acc ⊆ (growStep s keep)^[m] acc := by
  obtain ⟨d, rfl⟩ := Nat.exists_eq_add_of_le h
  rw [Function.iterate_add_apply]
  exact iterate_growStep_mono s (fun _ h => h) j (subset_iterate_growStep s keep d acc)

theorem mem_subtreeIds_self (s : Store) (nid : String) : nid ∈ subtreeIds s nid :=
  subset_iterate_growStep s (fun _ => true) s.nodes.length [nid] (List.mem_singleton_self nid)

theorem liveChainIds_subset (s : Store) (nid : String) (target : Bool) :
    liveChainIds s nid target ⊆ subtreeIds s nid :=
  iterate_growStep_mono s (fun _ _ => rfl) s.nodes.length (fun _ h => h)

theorem cascadeSet_subset (s : Store) (nid : String) (target : Bool) :
    cascadeSet s nid target ⊆ subtreeIds s nid := by
  unfold cascadeSet
  cases s.nodes.find? (fun n => decide (n.id = nid)) with
  | none => intro x hx; simp at hx
  | some n =>
    by_cases h : n.alive = !target
    · simpa [h] using liveChainIds_subset s nid target
    · intro x hx; simp [h] at hx

/-- Pointwise-equal predicates filter alike. -/
theorem filterCongr {α : Type} {p q : α → Bool} :
    ∀ {l : List α}, (∀ a ∈ l, p a = q a) → l.filter p = l.filter q
  | [], _ => rfl
  | a :: tl, h => by
    have ha := h a (List.mem_cons_self a tl)
    have htl := filterCongr (fun x hx => h x (List.mem_cons_of_mem a hx))
    simp only [List.filter_cons, ha, htl]

/-- A map that fixes every element of the list is the identity. -/
theorem mapIdOn {α : Type} {f : α → α} :
    ∀ {l : List α}, (∀ a ∈ l, f a = a) → l.map f = l
  | [], _ => rfl
  | a :: tl, h => by
    simp only [List.map_cons, h a (List.mem_cons_self a tl),
      mapIdOn (fun x hx => h x (List.mem_cons_of_mem a hx))]

/-- Pointwise-equal functions map alike. -/
theorem mapCongr {α β : Type} {f g : α → β} :
    ∀ {l : List α}, (∀ a ∈ l, f a = g a) → l.map f = l.map g
  | [], _ => rfl
  | a :: tl, h => by
    simp only [List.map_cons, h a (List.mem_cons_self a tl),
      mapCongr (fun x hx => h x (List.mem_cons_of_mem a hx))]

/-- When every node of the subtree passes the trigger's alive filter, the
filtered closure is the whole subtree. -/
theorem grow_eq_of_keep (s : Store) (keep : NodeRow → Bool) (nid : String)
    (h : ∀ n ∈ s.nodes, n.id ∈ subtreeIds s nid → keep n = true) :
    grow s keep [nid] = subtreeIds s nid := by
  have aux : ∀ j, j ≤ s.nodes.length →
      (growStep s keep)^[j] [nid] = (growStep s (fun _ => true))^[j] [nid] := by
    intro j
    induction j with
    | zero => intro _; rfl
    | succ j ih =>
      intro hj
      have hj' : j ≤ s.nodes.length := Nat.le_of_succ_le hj
      rw [Function.iterate_succ_apply', Function.iterate_succ_apply', ih hj']
      set A := (growStep s (fun _ => true))^[j] [nid] with hA
      unfold growStep
      have hfil : ∀ n ∈ s.nodes,
          (keep n && parentIn A n && !(decide (n.id ∈ A)))
            = ((fun _ => true) n && parentIn A n && !(decide (n.id ∈ A))) := by
        intro n hn
        by_cases hpar : parentIn A n = true
        · by_cases hmem : n.id ∈ A
          · simp [hmem]
          · have hin : n.id ∈ growStep s (fun _ => true) A := by
              refine List.mem_append_right _ (List.mem_map.mpr
                ⟨n, List.mem_filter.mpr ⟨hn, ?_⟩, rfl⟩)
              simp [hpar, hmem]
            have hsub : n.id ∈ subtreeIds s nid := by
              have h1 : growStep s (fun _ => true) A
                  = (growStep s (fun _ => true))^[j + 1] [nid] := by
                rw [Function.iterate_succ_apply', hA]
              rw [h1] at hin
              exact iterate_growStep_le s (fun _ => true) hj [nid] hin
            simp [h n hn hsub, hpar, hmem]
        · have hpar' : parentIn A n = false := by
            cases hp : parentIn A n
            · rfl
            · exact absurd hp hpar
          simp [hpar']
      rw [filterCongr hfil]
  exact aux s.nodes.length (Nat.le_refl _)

/-- When the root exists and every subtree node is at `!target`, the cascade
transitions exactly the subtree. -/
theorem cascadeSet_eq_subtree (s : Store) (nid : String) (target : Bool)
    (hex : ∃ n ∈ s.nodes, n.id = nid)
    (hn : ∀ n ∈ s.nodes, n.id ∈ subtreeIds s nid → n.alive = !target) :
    cascadeSet s nid target = subtreeIds s nid := by
  obtain ⟨x, hx, hxid⟩ := hex
  obtain ⟨n₀, hfind, hmem, hp⟩ := findOfExists (fun n => decide (n.id = nid)) s.nodes
    ⟨x, hx, by simp [hxid]⟩
  simp only [decide_eq_true_eq] at hp
  unfold cascadeSet
  rw [hfind]
  have halive : n₀.alive = !target := hn n₀ hmem (by rw [hp]; exact mem_subtreeIds_self s nid)
  show (if n₀.alive = !target then liveChainIds s nid target else []) = subtreeIds s nid
  rw [if_pos halive]
  unfold liveChainIds
  exact grow_eq_of_keep s _ nid (fun n hn' hsub => by simp [hn n hn' hsub])

/-- An empty cascade changes nothing. -/
theorem applyCascade_nil (s : Store) (target : Bool) : applyCascade s [] target = s := by
  unfold applyCascade
  simp

/-! ## Claim C7: SetAlive at the settled state is a no-op -/

/-- C7: when every `nodes` row with the given id is already at `target`
(in particular on a second consecutive soft delete), `SetAlive` leaves the
whole store unchanged: the trigger's `WHEN` clause sees no transition, so
nothing cascades, and the root row is rewritten with its current alive
state.  The trigger layer has no failure path, so no error is produced. -/
theorem c7_setAlive_settled_noop (s : Store) (nid : String) (target : Bool)
    (h : ∀ m ∈ s.nodes, m.id = nid → m.alive = target) :
    setAlive s nid target = s := by
  have hR : cascadeSet s nid target = [] := by
    unfold cascadeSet
    cases hf : s.nodes.find? (fun n => decide (n.id = nid)) with
    | none => rfl
    | some n =>
      have hmem := List.mem_of_find?_eq_some hf
      have hid : n.id = nid := by simpa using List.find?_some hf
      have halive : n.alive = target := h n hmem hid
      show (if n.alive = !target then liveChainIds s nid target else []) = []
      rw [if_neg (by simp [halive])]
  simp only [setAlive, hR, applyCascade_nil]
  have hmap : s.nodes.map (fun n => if n.id = nid then { n with alive := target } else n)
      = s.nodes :=
    mapIdOn (fun n hn => by
      by_cases hid : n.id = nid
      · rw [if_pos hid]; exact nodeRow_update_self n target (h n hn hid)
      · rw [if_neg hid])
  rw [hmap]

/-- C7 witness: a second soft delete of the already-deleted subtree root `a`
of `sDead` returns the store unchanged. -/
theorem c7_witness : setAlive sDead "a" false = sDead :=
  c7_setAlive_settled_noop sDead "a" false (by decide)

/-! ## Absorption of the root write into the cascade update -/

/-- When the root id is itself in the cascade set, the unconditional root-row
write of `SetAlive` is absorbed by the cascade update. -/
theorem setAlive_eq_applyCascade (s : Store) (nid : String) (target : Bool)
    (hmem : nid ∈ cascadeSet s nid target) :
    setAlive s nid target = applyCascade s (cascadeSet s nid target) target := by
  have key : ∀ n ∈ (applyCascade s (cascadeSet s nid target) target).nodes,
      n.id = nid → n.alive = target := by
    intro n hn hid
    have hrepr : (applyCascade s (cascadeSet s nid target) target).nodes
        = s.nodes.map (fun m =>
            if m.id ∈ cascadeSet s nid target then { m with alive := target } else m) := rfl
    rw [hrepr] at hn
    obtain ⟨m, _, rfl⟩ := List.mem_map.mp hn
    by_cases hin : m.id ∈ cascadeSet s nid target
    · simp [hin]
    · rw [if_neg hin] at hid ⊢
      exact absurd (hid ▸ hmem) hin
  have hmap : (applyCascade s (cascadeSet s nid target) target).nodes.map
        (fun n => if n.id = nid then { n with alive := target } else n)
      = (applyCascade s (cascadeSet s nid target) target).nodes :=
    mapIdOn (fun n hn => by
      by_cases hid : n.id = nid
      · rw [if_pos hid]; exact nodeRow_update_self n target (key n hn hid)
      · rw [if_neg hid])
  simp only [setAlive]
  rw [hmap]

/-! ## Claim C6: edges flip on either endpoint (OR semantics) -/

/-- C6: whenever the cascade of a `SetAlive` invocation transitions a port
`p` (its owner is in the transitioned node set and it was not yet at
`target`), every edge having `p` as *either* endpoint ends at `target` —
the trigger's `WHERE (from_port_id = NEW.id OR to_port_id = NEW.id)` does
not require the other endpoint's owner to belong to the cascaded subtree,
and the restore trigger is symmetric (`target` is arbitrary here). -/
theorem c6_edge_flips_on_either_endpoint (s : Store) (nid : String) (target : Bool)
    (p : PortRow) (hp : p ∈ s.ports) (hR : p.node_id ∈ cascadeSet s nid target)
    (ha : p.alive = !target) :
    ∀ e ∈ (setAlive s nid target).edges,
      e.from_port_id = p.id ∨ e.to_port_id = p.id → e.alive = target := by
  intro e he hinc
  have hT : p.id ∈ (s.ports.filter (fun q =>
      decide (q.node_id ∈ cascadeSet s nid target) && (q.alive == !target))).map (·.id) :=
    List.mem_map.mpr ⟨p, List.mem_filter.mpr ⟨hp, by simp [hR, ha]⟩, rfl⟩
  have he' : e ∈ s.edges.map (fun ed =>
      if ed.from_port_id ∈ (s.ports.filter (fun q =>
            decide (q.node_id ∈ cascadeSet s nid target) && (q.alive == !target))).map (·.id)
        ∨ ed.to_port_id ∈ (s.ports.filter (fun q =>
            decide (q.node_id ∈ cascadeSet s nid target) && (q.alive == !target))).map (·.id)
      then { ed with alive := target } else ed) := he
  obtain ⟨e₀, _, rfl⟩ := List.mem_map.mp he'
  by_cases hc : e₀.from_port_id ∈ (s.ports.filter (fun q =>
        decide (q.node_id ∈ cascadeSet s nid target) && (q.alive == !target))).map (·.id)
      ∨ e₀.to_port_id ∈ (s.ports.filter (fun q =>
        decide (q.node_id ∈ cascadeSet s nid target) && (q.alive == !target))).map (·.id)
  · rw [if_pos hc]
  · rw [if_neg hc] at hinc ⊢
    cases hinc with
    | inl h1 => exact absurd (Or.inl (by rw [h1]; exact hT)) hc
    | inr h2 => exact absurd (Or.inr (by rw [h2]; exact hT)) hc

/-- C6 witness: soft-deleting root `n1` of `sEdgeW` kills the edge `e1` even
though its other endpoint `p2` belongs to the untouched root `n2`. -/
theorem c6_witness :
    ({ id := "e1", from_port_id := "p1", to_port_id := "p2", description := "cross",
        alive := false } : EdgeRow) ∈ (setAlive sEdgeW "n1" false).edges ∧
    ({ id := "e1", from_port_id := "p1", to_port_id := "p2", description := "cross",
        alive := false } : EdgeRow).alive = false :=
  ⟨by decide,
    c6_edge_flips_on_either_endpoint sEdgeW "n1" false
      ⟨"p1", "n1", "output", "P1", "", true⟩ (by decide) (by decide) (by decide)
      ⟨"e1", "p1", "p2", "cross", false⟩ (by decide) (Or.inl rfl)⟩

/-! ## Claim C10: restore does not touch the (dead) parent -/

/-- C10: for a node `nid` whose parent `pid` is soft-deleted and not itself a
descendant of `nid` (no cycle through `nid`), `SetAlive(nid, true)` leaves
`nid` alive and the parent still dead: the triggers only fire downward, on
rows with `parent_id = NEW.id`, so nothing enforces that an alive node's
ancestors are alive.  The trigger layer has no failure path, so the restore
always succeeds. -/
theorem c10_restore_leaves_parent_dead (s : Store) (nid pid : String)
    (hch : ∃ n ∈ s.nodes, n.id = nid ∧ n.parent_id = some pid)
    (hdead : ∀ m ∈ s.nodes, m.id = pid → m.alive = false)
    (hnotin : pid ∉ subtreeIds s nid) :
    (∀ m ∈ (setAlive s nid true).nodes, m.id = nid → m.alive = true) ∧
    (∀ m ∈ (setAlive s nid true).nodes, m.id = pid → m.alive = false) := by
  have hnodes : (setAlive s nid true).nodes
      = (s.nodes.map (fun n =>
          if n.id ∈ cascadeSet s nid true then { n with alive := true } else n)).map
        (fun n => if n.id = nid then { n with alive := true } else n) := rfl
  constructor
  · intro m hm hid
    rw [hnodes] at hm
    obtain ⟨m₁, _, rfl⟩ := List.mem_map.mp hm
    by_cases h1 : m₁.id = nid
    · simp [h1]
    · rw [if_neg h1] at hid
      exact absurd hid h1
  · intro m hm hid
    rw [hnodes] at hm
    obtain ⟨m₁, hm₁, rfl⟩ := List.mem_map.mp hm
    obtain ⟨m₀, hm₀, rfl⟩ := List.mem_map.mp hm₁
    have hpidnid : ¬ (pid = nid) := fun h => hnotin (h ▸ mem_subtreeIds_self s nid)
    have hidc : ((if m₀.id ∈ cascadeSet s nid true then { m₀ with alive := true } else m₀)
        : NodeRow).id = m₀.id := by
      by_cases hc : m₀.id ∈ cascadeSet s nid true
      · rw [if_pos hc]
      · rw [if_neg hc]
    have hid0 : m₀.id = pid := by
      by_cases h1 : ((if m₀.id ∈ cascadeSet s nid true then { m₀ with alive := true } else m₀)
          : NodeRow).id = nid
      · rw [if_pos h1] at hid
        rw [← hidc]
        exact hid
      · rw [if_neg h1] at hid
        rw [← hidc]
        exact hid
    have hnotR : m₀.id ∉ cascadeSet s nid true := fun hin =>
      hnotin (hid0 ▸ cascadeSet_subset s nid true hin)
    rw [if_neg hnotR]
    rw [if_neg (fun h => hpidnid (hid0 ▸ h))]
    exact hdead m₀ hm₀ hid0

/-- C10 witness: in `sDeadParent`, restoring child `c` under the dead parent
`p` leaves `c` alive and `p` dead. -/
theorem c10_witness :
    (∀ m ∈ (setAlive sDeadParent "c" true).nodes, m.id = "c" → m.alive = true) ∧
    (∀ m ∈ (setAlive sDeadParent "c" true).nodes, m.id = "p" → m.alive = false) :=
  c10_restore_leaves_parent_dead sDeadParent "c" "p" (by decide) (by decide) (by decide)

/-! ## Claim C9: port deletion frame -/

/-- Updating only the rows a predicate rejects leaves the kept rows intact. -/
theorem filterMapNe {α : Type} (f : α → α) (p : α → Bool)
    (hpf : ∀ a, p (f a) = p a) (hfix : ∀ a, p a = true → f a = a) (l : List α) :
    (l.map f).filter p = l.filter p := by
  rw [filterOfMap, filterCongr (fun a _ => hpf a)]
  exact mapIdOn (fun a ha => hfix a (List.of_mem_filter ha))

/-- C9: soft-deleting an alive port `pid` cascades to exactly its values and
its incident edges; nodes, tags, every other port (in particular sibling
ports of the same owning node), every value of another port and every edge
not incident to `pid` are left unchanged. -/
theorem c9_port_delete_touches_only_own_records (s : Store) (pid : String)
    (h : ∃ p ∈ s.ports, p.id = pid ∧ p.alive = true) :
    (softDeletePort s pid).nodes = s.nodes ∧
    (softDeletePort s pid).tags = s.tags ∧
    (softDeletePort s pid).ports.filter (fun q => decide (¬ q.id = pid))
      = s.ports.filter (fun q => decide (¬ q.id = pid)) ∧
    (∀ v ∈ (softDeletePort s pid).port_values, v.port_id = pid → v.alive = false) ∧
    (softDeletePort s pid).port_values.filter (fun v => decide (¬ v.port_id = pid))
      = s.port_values.filter (fun v => decide (¬ v.port_id = pid)) ∧
    (∀ e ∈ (softDeletePort s pid).edges,
      e.from_port_id = pid ∨ e.to_port_id = pid → e.alive = false) ∧
    (softDeletePort s pid).edges.filter
        (fun e => decide (¬ (e.from_port_id = pid ∨ e.to_port_id = pid)))
      = s.edges.filter (fun e => decide (¬ (e.from_port_id = pid ∨ e.to_port_id = pid))) := by
  obtain ⟨p, hp, hpid, hpal⟩ := h
  have hfire : s.ports.any (fun q => decide (q.id = pid) && q.alive) = true :=
    List.any_eq_true.mpr ⟨p, hp, by simp [hpid, hpal]⟩
  have hred : softDeletePort s pid =
      { nodes := s.nodes
        ports := s.ports.map (fun q => if q.id = pid then { q with alive := false } else q)
        port_values := s.port_values.map
          (fun v => if v.port_id = pid ∧ v.alive = true then { v with alive := false } else v)
        edges := s.edges.map (fun e =>
          if (e.from_port_id = pid ∨ e.to_port_id = pid) ∧ e.alive = true then
            { e with alive := false } else e)
        tags := s.tags } := by
    unfold softDeletePort
    rw [hfire]
    rfl
  rw [hred]
  refine ⟨rfl, rfl, ?_, ?_, ?_, ?_, ?_⟩
  · exact filterMapNe _ _
      (fun q => by by_cases hq : q.id = pid
                   · rw [if_pos hq]
                   · rw [if_neg hq])
      (fun q hq => by
        simp only [decide_eq_true_eq] at hq
        rw [if_neg hq])
      s.ports
  · intro v hv hvid
    obtain ⟨v₀, _, rfl⟩ := List.mem_map.mp hv
    by_cases hva : v₀.alive = true
    · have hvpid : v₀.port_id = pid := by
        by_cases hc : v₀.port_id = pid ∧ v₀.alive = true
        · exact hc.1
        · rw [if_neg hc] at hvid; exact hvid
      rw [if_pos ⟨hvpid, hva⟩]
    · have hnc : ¬ (v₀.port_id = pid ∧ v₀.alive = true) := fun hc => hva hc.2
      rw [if_neg hnc]
      cases hb : v₀.alive with
      | false => rfl
      | true => exact absurd hb hva
  · exact filterMapNe _ _
      (fun v => by by_cases hv : v.port_id = pid ∧ v.alive = true
                   · rw [if_pos hv]
                   · rw [if_neg hv])
      (fun v hv => by
        simp only [decide_eq_true_eq] at hv
        rw [if_neg (fun hc => hv hc.1)])
      s.port_values
  · intro e he hinc
    obtain ⟨e₀, _, rfl⟩ := List.mem_map.mp he
    by_cases hea : e₀.alive = true
    · have heinc : e₀.from_port_id = pid ∨ e₀.to_port_id = pid := by
        by_cases hc : (e₀.from_port_id = pid ∨ e₀.to_port_id = pid) ∧ e₀.alive = true
        · exact hc.1
        · rw [if_neg hc] at hinc; exact hinc
      rw [if_pos ⟨heinc, hea⟩]
    · have hnc : ¬ ((e₀.from_port_id = pid ∨ e₀.to_port_id = pid) ∧ e₀.alive = true) :=
        fun hc => hea hc.2
      rw [if_neg hnc]
      cases hb : e₀.alive with
      | false => rfl
      | true => exact absurd hb hea
  · exact filterMapNe _ _
      (fun e => by by_cases he : (e.from_port_id = pid ∨ e.to_port_id = pid) ∧ e.alive = true
                   · rw [if_pos he]
                   · rw [if_neg he])
      (fun e he => by
        simp only [decide_eq_true_eq] at he
        rw [if_neg (fun hc => he hc.1)])
      s.edges

/-- C9 witness: deleting port `p1` of `sPortW` kills its value `v1` and the
incident edge `e1` while nodes, tags, the sibling port `p2` and its value
`v2` are untouched. -/
theorem c9_witness :
    (softDeletePort sPortW "p1").nodes = sPortW.nodes ∧
    (softDeletePort sPortW "p1").tags = sPortW.tags ∧
    (softDeletePort sPortW "p1").ports.filter (fun q => decide (¬ q.id = "p1"))
      = sPortW.ports.filter (fun q => decide (¬ q.id = "p1")) ∧
    (∀ v ∈ (softDeletePort sPortW "p1").port_values, v.port_id = "p1" → v.alive = false) ∧
    (softDeletePort sPortW "p1").port_values.filter (fun v => decide (¬ v.port_id = "p1"))
      = sPortW.port_values.filter (fun v => decide (¬ v.port_id = "p1")) ∧
    (∀ e ∈ (softDeletePort sPortW "p1").edges,
      e.from_port_id = "p1" ∨ e.to_port_id = "p1" → e.alive = false) ∧
    (softDeletePort sPortW "p1").edges.filter
        (fun e => decide (¬ (e.from_port_id = "p1" ∨ e.to_port_id = "p1")))
      = sPortW.edges.filter (fun e => decide (¬ (e.from_port_id = "p1" ∨ e.to_port_id = "p1"))) :=
  c9_port_delete_touches_only_own_records sPortW "p1" (by decide)

/-! ## Shape invariance: `SetAlive` only changes `alive` fields -/

/-- Filtering and projecting a mapped list, when the map is invisible to both
the predicate and the projection. -/
theorem filterMapAfter {α β : Type} (f : α → α) (p q : α → Bool) (g : α → β)
    (hpq : ∀ n, p (f n) = q n) (hg : ∀ n, g (f n) = g n) :
    ∀ l : List α, ((l.map f).filter p).map g = (l.filter q).map g := by
  intro l
  induction l with
  | nil => rfl
  | cons a tl ih =>
    simp only [List.map_cons, List.filter_cons, hpq a]
    cases hq : q a
    · simpa [hq] using ih
    · simp [hq, hg a, ih]

/-- `flatMap` respects pointwise equality. -/
theorem flatMapCongr {α β : Type} {f g : α → List β} :
    ∀ {l : List α}, (∀ a ∈ l, f a = g a) → l.flatMap f = l.flatMap g
  | [], _ => rfl
  | a :: tl, h => by
    simp only [List.flatMap_cons, h a (List.mem_cons_self a tl),
      flatMapCongr (fun x hx => h x (List.mem_cons_of_mem a hx))]

/-- A node-row rewrite that only touches `alive` keeps `id`. -/
theorem shape_id {f : NodeRow → NodeRow} (hf : ∀ n, ∃ b, f n = { n with alive := b })
    (n : NodeRow) : (f n).id = n.id := by
  obtain ⟨b, hb⟩ := hf n; rw [hb]

/-- A node-row rewrite that only touches `alive` keeps `parent_id`. -/
theorem shape_parent {f : NodeRow → NodeRow} (hf : ∀ n, ∃ b, f n = { n with alive := b })
    (n : NodeRow) : (f n).parent_id = n.parent_id := by
  obtain ⟨b, hb⟩ := hf n; rw [hb]

/-- A node-row rewrite that only touches `alive` is invisible to `hierRowOf`. -/
theorem shape_hierRowOf {f : NodeRow → NodeRow} (hf : ∀ n, ∃ b, f n = { n with alive := b })
    (n : NodeRow) (lvl : Nat) : hierRowOf (f n) lvl = hierRowOf n lvl := by
  obtain ⟨b, hb⟩ := hf n; rw [hb]; rfl

/-- The unfiltered child step is insensitive to alive-only rewrites of the
node table. -/
theorem growStep_eq_of_map (s s' : Store) (f : NodeRow → NodeRow)
    (hf : ∀ n, ∃ b, f n = { n with alive := b }) (hn : s'.nodes = s.nodes.map f)
    (acc : List String) :
    growStep s' (fun _ => true) acc = growStep s (fun _ => true) acc := by
  unfold growStep
  rw [hn]
  congr 1
  refine filterMapAfter f _ _ _ (fun n => ?_) (fun n => shape_id hf n) s.nodes
  have h1 : parentIn acc (f n) = parentIn acc n := by
    unfold parentIn; rw [shape_parent hf n]
  simp only [h1, shape_id hf n]

/-- Subtrees are insensitive to alive-only rewrites of the node table. -/
theorem subtreeIds_eq_of_map (s s' : Store) (f : NodeRow → NodeRow)
    (hf : ∀ n, ∃ b, f n = { n with alive := b }) (hn : s'.nodes = s.nodes.map f)
    (nid : String) : subtreeIds s' nid = subtreeIds s nid := by
  have haux : ∀ k (acc : List String),
      (growStep s' (fun _ => true))^[k] acc = (growStep s (fun _ => true))^[k] acc := by
    intro k
    induction k with
    | zero => intro acc; rfl
    | succ k ih =>
      intro acc
      rw [Function.iterate_succ_apply, growStep_eq_of_map s s' f hf hn,
        Function.iterate_succ_apply, ih]
  unfold subtreeIds grow
  rw [hn, List.length_map, haux]

/-- The CTE base query is insensitive to alive-only rewrites. -/
theorem hierBase_eq_of_map (s s' : Store) (f : NodeRow → NodeRow)
    (hf : ∀ n, ∃ b, f n = { n with alive := b }) (hn : s'.nodes = s.nodes.map f)
    (root : String) : hierBase s' root = hierBase s root := by
  unfold hierBase
  rw [hn]
  exact filterMapAfter f _ _ _ (fun n => by simp only [shape_id hf n])
    (fun n => shape_hierRowOf hf n 0) s.nodes

/-- The CTE recursive step is insensitive to alive-only rewrites. -/
theorem hierChildren_eq_of_map (s s' : Store) (f : NodeRow → NodeRow)
    (hf : ∀ n, ∃ b, f n = { n with alive := b }) (hn : s'.nodes = s.nodes.map f)
    (frontier : List HierRow) : hierChildren s' frontier = hierChildren s frontier := by
  unfold hierChildren
  refine flatMapCongr (fun r _ => ?_)
  rw [hn]
  exact filterMapAfter f _ _ _ (fun n => by simp only [shape_parent hf n])
    (fun n => shape_hierRowOf hf n (r.level + 1)) s.nodes

/-- The whole CTE expansion is insensitive to alive-only rewrites. -/
theorem hierExpand_eq_of_map (s s' : Store) (f : NodeRow → NodeRow)
    (hf : ∀ n, ∃ b, f n = { n with alive := b }) (hn : s'.nodes = s.nodes.map f) :
    ∀ (k : Nat) (frontier : List HierRow), hierExpand s' k frontier = hierExpand s k frontier := by
  intro k
  induction k with
  | zero => intro frontier; rfl
  | succ k ih =>
    intro frontier
    show hierChildren s' frontier ++ hierExpand s' k (hierChildren s' frontier)
      = hierChildren s frontier ++ hierExpand s k (hierChildren s frontier)
    rw [hierChildren_eq_of_map s s' f hf hn, ih]

/-- `SetAlive` rewrites the node table through a map touching only `alive`. -/
theorem setAlive_nodes_shape (s : Store) (nid : String) (b : Bool) :
    ∃ f : NodeRow → NodeRow, (∀ n, ∃ b', f n = { n with alive := b' }) ∧
      (setAlive s nid b).nodes = s.nodes.map f := by
  refine ⟨(fun n => if n.id = nid then { n with alive := b } else n) ∘
    (fun n => if n.id ∈ cascadeSet s nid b then { n with alive := b } else n), fun n => ?_, ?_⟩
  · by_cases h1 : n.id ∈ cascadeSet s nid b
    · refine ⟨b, ?_⟩
      show (fun m => if m.id = nid then { m with alive := b } else m)
        (if n.id ∈ cascadeSet s nid b then { n with alive := b } else n) = { n with alive := b }
      rw [if_pos h1]
      show (if ({ n with alive := b } : NodeRow).id = nid
        then { ({ n with alive := b } : NodeRow) with alive := b }
        else ({ n with alive := b } : NodeRow)) = { n with alive := b }
      split
      · rfl
      · rfl
    · by_cases h2 : n.id = nid
      · refine ⟨b, ?_⟩
        show (fun m => if m.id = nid then { m with alive := b } else m)
          (if n.id ∈ cascadeSet s nid b then { n with alive := b } else n) = { n with alive := b }
        rw [if_neg h1]
        show (if n.id = nid then { n with alive := b } else n) = { n with alive := b }
        rw [if_pos h2]
      · refine ⟨n.alive, ?_⟩
        show (fun m => if m.id = nid then { m with alive := b } else m)
          (if n.id ∈ cascadeSet s nid b then { n with alive := b } else n) = { n with alive := n.alive }
        rw [if_neg h1]
        show (if n.id = nid then { n with alive := b } else n) = { n with alive := n.alive }
        rw [if_neg h2]
  · show ((s.nodes.map (fun n =>
        if n.id ∈ cascadeSet s nid b then { n with alive := b } else n)).map
        (fun n => if n.id = nid then { n with alive := b } else n)) = _
    rw [List.map_map]

/-! ## Claims C4 and C5: the hierarchy CTEs -/

/-- C4 counterexample: both CTE variants return the soft-deleted child `b`
of `sPrune` (every `sPrune` row with id `b` has `alive = false`), so
`GetSubtree` does return records with `alive = false`. -/
theorem c4_counterexample :
    (∃ r ∈ getSubtreeSqlite sPrune "a" 1, r.id = "b") ∧
    (∃ r ∈ getSubtreePostgres sPrune "a" 1, r.id = "b") ∧
    (∀ n ∈ sPrune.nodes, n.id = "b" → n.alive = false) := by decide

/-- C4 amended: neither CTE variant carries any `deleted_at` condition, so
`GetSubtree` is entirely insensitive to alive flags: its output is unchanged
by any `SetAlive` invocation, and in particular the subtree does *not*
disappear after `SetAlive(N, false)`. -/
theorem c4_getSubtree_ignores_alive (s : Store) (m : String) (b : Bool)
    (root : String) (D : Nat) :
    getSubtreeSqlite (setAlive s m b) root D = getSubtreeSqlite s root D ∧
    getSubtreePostgres (setAlive s m b) root D = getSubtreePostgres s root D := by
  obtain ⟨f, hf, hn⟩ := setAlive_nodes_shape s m b
  constructor
  · unfold getSubtreeSqlite
    rw [hierBase_eq_of_map s (setAlive s m b) f hf hn,
      hierExpand_eq_of_map s (setAlive s m b) f hf hn]
  · unfold getSubtreePostgres
    rw [hierBase_eq_of_map s (setAlive s m b) f hf hn,
      hierExpand_eq_of_map s (setAlive s m b) f hf hn]

/-- Levels grow by at most one per CTE round. -/
theorem hierExpand_level_le (s : Store) :
    ∀ (k : Nat) (frontier : List HierRow) (L : Nat),
      (∀ r ∈ frontier, r.level ≤ L) → ∀ r ∈ hierExpand s k frontier, r.level ≤ L + k := by
  intro k
  induction k with
  | zero =>
    intro frontier L _ r hr
    simp [hierExpand] at hr
  | succ k ih =>
    intro frontier L hfr r hr
    have hnext : ∀ r ∈ hierChildren s frontier, r.level ≤ L + 1 := by
      intro r hr
      unfold hierChildren at hr
      obtain ⟨fr, hfrm, hrm⟩ := List.mem_flatMap.mp hr
      obtain ⟨n, _, rfl⟩ := List.mem_map.mp hrm
      exact Nat.succ_le_succ (hfr fr hfrm)
    rcases List.mem_append.mp hr with h | h
    · exact Nat.le_trans (hnext r h) (by omega)
    · have := ih (hierChildren s frontier) (L + 1) hnext r h
      omega

/-- C5 counterexample: on the five-node chain `sChain`, the SQLite CTE with
`D = 3` (`WHERE level <= 3` on the frontier row) returns a row at level 4. -/
theorem c5_counterexample : ∃ r ∈ getSubtreeSqlite sChain "a0" 3, 3 < r.level := by decide

/-- C5 amended: the PostgreSQL CTE (`WHERE nh.level < D`) never returns a
row at a level above `D`; the SQLite CTE tests the *frontier* level with
`<=`, so it expands one round further and its rows are only bounded by
`D + 1` (the bound `D` itself fails on `sChain`, see the counterexample). -/
theorem c5_level_bounds (s : Store) (root : String) (D : Nat) :
    (∀ r ∈ getSubtreePostgres s root D, r.level ≤ D) ∧
    (∀ r ∈ getSubtreeSqlite s root D, r.level ≤ D + 1) := by
  have hbase : ∀ r ∈ hierBase s root, r.level ≤ 0 := by
    intro r hr
    obtain ⟨n, _, rfl⟩ := List.mem_map.mp hr
    exact Nat.le_refl 0
  constructor
  · intro r hr
    rcases List.mem_append.mp hr with h | h
    · exact Nat.le_trans (hbase r h) (Nat.zero_le D)
    · have := hierExpand_level_le s D (hierBase s root) 0 hbase r h
      omega
  · intro r hr
    rcases List.mem_append.mp hr with h | h
    · exact Nat.le_trans (hbase r h) (Nat.zero_le (D + 1))
    · have := hierExpand_level_le s (D + 1) (hierBase s root) 0 hbase r h
      omega

/-! ## Claim C1: cascade propagation -/

theorem iteNode_id (c : Prop) [Decidable c] (x : NodeRow) (b : Bool) :
    (if c then { x with alive := b } else x).id = x.id := by
  split
  · rfl
  · rfl

theorem itePort_node_id (c : Prop) [Decidable c] (x : PortRow) (b : Bool) :
    (if c then { x with alive := b } else x).node_id = x.node_id := by
  split
  · rfl
  · rfl

theorem iteValue_port_id (c : Prop) [Decidable c] (x : PortValueRow) (b : Bool) :
    (if c then { x with alive := b } else x).port_id = x.port_id := by
  split
  · rfl
  · rfl

theorem iteEdge_from (c : Prop) [Decidable c] (x : EdgeRow) (b : Bool) :
    (if c then { x with alive := b } else x).from_port_id = x.from_port_id := by
  split
  · rfl
  · rfl

theorem iteEdge_to (c : Prop) [Decidable c] (x : EdgeRow) (b : Bool) :
    (if c then { x with alive := b } else x).to_port_id = x.to_port_id := by
  split
  · rfl
  · rfl

theorem iteTag_node_id (c : Prop) [Decidable c] (x : TagRow) (b : Bool) :
    (if c then { x with alive := b } else x).node_id = x.node_id := by
  split
  · rfl
  · rfl

/-- C1 counterexample: in `sPrune` the child `b` of `a` is already dead, so
the soft-delete trigger's `WHERE … deleted_at IS NULL` filter skips it and
never recurses into it: after `SetAlive(a, false)` the grandchild `g`, which
is reachable from `a` through ownership, is still alive. -/
theorem c1_counterexample :
    ("g" ∈ subtreeIds sPrune "a") ∧
    (∃ n ∈ (setAlive sPrune "a" false).nodes, n.id = "g" ∧ n.alive = true) := by decide

/-- C1 amended: the cascade prunes at rows already at `target`; when the root
exists and every subtree node and every subtree-owned port is at `!target`,
`SetAlive(nid, target)` does propagate `target` to every reachable record:
all subtree nodes, their ports, those ports' values, every edge incident to
such a port, and all tags of subtree nodes. -/
theorem c1_cascade_propagates_off_target_subtree (s : Store) (nid : String) (target : Bool)
    (hex : ∃ n ∈ s.nodes, n.id = nid)
    (hnodes : ∀ n ∈ s.nodes, n.id ∈ subtreeIds s nid → n.alive = !target)
    (hports : ∀ p ∈ s.ports, p.node_id ∈ subtreeIds s nid → p.alive = !target) :
    (∀ n ∈ (setAlive s nid target).nodes, n.id ∈ subtreeIds s nid → n.alive = target) ∧
    (∀ p ∈ (setAlive s nid target).ports, p.node_id ∈ subtreeIds s nid → p.alive = target) ∧
    (∀ v ∈ (setAlive s nid target).port_values,
      v.port_id ∈ subtreePortIds s nid → v.alive = target) ∧
    (∀ e ∈ (setAlive s nid target).edges,
      e.from_port_id ∈ subtreePortIds s nid ∨ e.to_port_id ∈ subtreePortIds s nid →
        e.alive = target) ∧
    (∀ t ∈ (setAlive s nid target).tags, t.node_id ∈ subtreeIds s nid → t.alive = target) := by
  have hR : cascadeSet s nid target = subtreeIds s nid :=
    cascadeSet_eq_subtree s nid target hex hnodes
  have hT : (s.ports.filter (fun p =>
        decide (p.node_id ∈ cascadeSet s nid target) && (p.alive == !target))).map (·.id)
      = subtreePortIds s nid := by
    unfold subtreePortIds
    rw [hR]
    congr 1
    apply filterCongr
    intro p hp
    by_cases hmem : p.node_id ∈ subtreeIds s nid
    · simp [hmem, hports p hp hmem]
    · simp [hmem]
  refine ⟨?_, ?_, ?_, ?_, ?_⟩
  · intro n hn hsub
    have hrepr : (setAlive s nid target).nodes
        = (s.nodes.map (fun m =>
            if m.id ∈ cascadeSet s nid target then { m with alive := target } else m)).map
          (fun m => if m.id = nid then { m with alive := target } else m) := rfl
    rw [hrepr] at hn
    obtain ⟨m₁, hm₁, rfl⟩ := List.mem_map.mp hn
    obtain ⟨m₀, _, rfl⟩ := List.mem_map.mp hm₁
    rw [iteNode_id, iteNode_id] at hsub
    rw [if_pos (show m₀.id ∈ cascadeSet s nid target by rw [hR]; exact hsub)]
    show (if ({ m₀ with alive := target } : NodeRow).id = nid
      then { ({ m₀ with alive := target } : NodeRow) with alive := target }
      else ({ m₀ with alive := target } : NodeRow)).alive = target
    split
    · rfl
    · rfl
  · intro p hp hsub
    have hrepr : (setAlive s nid target).ports
        = s.ports.map (fun q =>
            if q.node_id ∈ cascadeSet s nid target then { q with alive := target } else q) := rfl
    rw [hrepr] at hp
    obtain ⟨q₀, _, rfl⟩ := List.mem_map.mp hp
    rw [itePort_node_id] at hsub
    rw [if_pos (show q₀.node_id ∈ cascadeSet s nid target by rw [hR]; exact hsub)]
  · intro v hv hsub
    have hrepr : (setAlive s nid target).port_values
        = s.port_values.map (fun w =>
            if w.port_id ∈ (s.ports.filter (fun p =>
              decide (p.node_id ∈ cascadeSet s nid target) && (p.alive == !target))).map (·.id)
            then { w with alive := target } else w) := rfl
    rw [hrepr] at hv
    obtain ⟨w₀, _, rfl⟩ := List.mem_map.mp hv
    rw [iteValue_port_id] at hsub
    rw [if_pos (show w₀.port_id ∈ _ by rw [hT]; exact hsub)]
  · intro e he hsub
    have hrepr : (setAlive s nid target).edges
        = s.edges.map (fun d =>
            if d.from_port_id ∈ (s.ports.filter (fun p =>
                decide (p.node_id ∈ cascadeSet s nid target) && (p.alive == !target))).map (·.id)
              ∨ d.to_port_id ∈ (s.ports.filter (fun p =>
                decide (p.node_id ∈ cascadeSet s nid target) && (p.alive == !target))).map (·.id)
            then { d with alive := target } else d) := rfl
    rw [hrepr] at he
    obtain ⟨d₀, _, rfl⟩ := List.mem_map.mp he
    rw [iteEdge_from, iteEdge_to] at hsub
    have hcond : d₀.from_port_id ∈ (s.ports.filter (fun p =>
        decide (p.node_id ∈ cascadeSet s nid target) && (p.alive == !target))).map (·.id)
      ∨ d₀.to_port_id ∈ (s.ports.filter (fun p =>
        decide (p.node_id ∈ cascadeSet s nid target) && (p.alive == !target))).map (·.id) := by
      rw [hT]
      exact hsub
    rw [if_pos hcond]
  · intro t ht hsub
    have hrepr : (setAlive s nid target).tags
        = s.tags.map (fun u =>
            if u.node_id ∈ cascadeSet s nid target then { u with alive := target } else u) := rfl
    rw [hrepr] at ht
    obtain ⟨u₀, _, rfl⟩ := List.mem_map.mp ht
    rw [iteTag_node_id] at hsub
    rw [if_pos (show u₀.node_id ∈ cascadeSet s nid target by rw [hR]; exact hsub)]

/-- C1 witness: on the fully alive store `sAll`, `SetAlive(a, false)` reaches
every record: nodes, ports, values, edges and tags of the subtree all end
dead. -/
theorem c1_witness :
    (∀ n ∈ sAll.nodes, n.id ∈ subtreeIds sAll "a" → n.alive = !false) ∧
    (∀ n ∈ (setAlive sAll "a" false).nodes, n.id ∈ subtreeIds sAll "a" → n.alive = false) ∧
    (∀ v ∈ (setAlive sAll "a" false).port_values,
      v.port_id ∈ subtreePortIds sAll "a" → v.alive = false) ∧
    (∀ e ∈ (setAlive sAll "a" false).edges,
      e.from_port_id ∈ subtreePortIds sAll "a" ∨ e.to_port_id ∈ subtreePortIds sAll "a" →
        e.alive = false) ∧
    (∀ t ∈ (setAlive sAll "a" false).tags, t.node_id ∈ subtreeIds sAll "a" → t.alive = false) := by
  have h := c1_cascade_propagates_off_target_subtree sAll "a" false
    (by decide) (by decide) (by decide)
  exact ⟨by decide, h.1, h.2.2.1, h.2.2.2.1, h.2.2.2.2⟩

/-! ## Claim C2: delete followed by restore -/

theorem itePort_id (c : Prop) [Decidable c] (x : PortRow) (b : Bool) :
    (if c then { x with alive := b } else x).id = x.id := by
  split
  · rfl
  · rfl

/-- Unfold `applyCascade` with its transitioned-port list named. -/
theorem applyCascade_expand (s : Store) (R T : List String) (target : Bool)
    (hT : (s.ports.filter (fun p =>
        decide (p.node_id ∈ R) && (p.alive == !target))).map (·.id) = T) :
    applyCascade s R target =
      { nodes := s.nodes.map (fun n => if n.id ∈ R then { n with alive := target } else n)
        ports := s.ports.map (fun p => if p.node_id ∈ R then { p with alive := target } else p)
        port_values := s.port_values.map
          (fun v => if v.port_id ∈ T then { v with alive := target } else v)
        edges := s.edges.map (fun e =>
          if e.from_port_id ∈ T ∨ e.to_port_id ∈ T then { e with alive := target } else e)
        tags := s.tags.map (fun t => if t.node_id ∈ R then { t with alive := target } else t) } := by
  rw [← hT]
  rfl

/-- C2 counterexample: in `sPrune`, delete of `a` then restore of `a` leaves
the descendant `hh` dead although `hh` was dead at restore time — the restore
trigger prunes at the alive node `g` on the way (its `WHERE … deleted_at IS
NOT NULL` filter skips `g`, so the cascade never recurses past it), so the
restore does *not* revive every descendant record dead at restore time. -/
theorem c2_counterexample :
    ("hh" ∈ subtreeIds sPrune "a") ∧
    (∃ n ∈ (setAlive sPrune "a" false).nodes, n.id = "hh" ∧ n.alive = false) ∧
    (∃ n ∈ (setAlive (setAlive sPrune "a" false) "a" true).nodes,
      n.id = "hh" ∧ n.alive = false) := by decide

/-- C2 amended: when the root exists and its entire subtree closure — nodes,
subtree-owned ports, their values, edges incident to those ports, and tags —
is alive, `SetAlive(nid,false)` followed by `SetAlive(nid,true)` restores
exactly the prior store.  In general the restore revives exactly the
descendants reached through chains of records dead at restore time (the
cascade prunes at alive nodes), shown here for node and tag rows of an
arbitrary store. -/
theorem c2_roundtrip_restores_alive_subtree (s s' : Store) (nid nid' : String)
    (hex : ∃ n ∈ s.nodes, n.id = nid)
    (hn : ∀ n ∈ s.nodes, n.id ∈ subtreeIds s nid → n.alive = true)
    (hp : ∀ p ∈ s.ports, p.node_id ∈ subtreeIds s nid → p.alive = true)
    (hv : ∀ v ∈ s.port_values, v.port_id ∈ subtreePortIds s nid → v.alive = true)
    (he : ∀ e ∈ s.edges,
      e.from_port_id ∈ subtreePortIds s nid ∨ e.to_port_id ∈ subtreePortIds s nid →
        e.alive = true)
    (ht : ∀ t ∈ s.tags, t.node_id ∈ subtreeIds s nid → t.alive = true) :
    setAlive (setAlive s nid false) nid true = s ∧
    (∀ m ∈ (setAlive s' nid' true).nodes, m.id ∈ cascadeSet s' nid' true → m.alive = true) ∧
    (∀ t ∈ (setAlive s' nid' true).tags,
      t.node_id ∈ cascadeSet s' nid' true → t.alive = true) := by
  refine ⟨?_, ?_, ?_⟩
  · -- the round trip
    have hR1 : cascadeSet s nid false = subtreeIds s nid :=
      cascadeSet_eq_subtree s nid false hex hn
    have hmem1 : nid ∈ cascadeSet s nid false := by
      rw [hR1]; exact mem_subtreeIds_self s nid
    have hT1 : (s.ports.filter (fun p =>
        decide (p.node_id ∈ subtreeIds s nid) && (p.alive == !false))).map (·.id)
        = subtreePortIds s nid := by
      unfold subtreePortIds
      congr 1
      apply filterCongr
      intro p hpmem
      by_cases hmem : p.node_id ∈ subtreeIds s nid
      · simp [hmem, hp p hpmem hmem]
      · simp [hmem]
    rw [setAlive_eq_applyCascade s nid false hmem1, hR1,
      applyCascade_expand s (subtreeIds s nid) (subtreePortIds s nid) false hT1]
    set s1 : Store :=
      { nodes := s.nodes.map (fun n =>
          if n.id ∈ subtreeIds s nid then { n with alive := false } else n)
        ports := s.ports.map (fun p =>
          if p.node_id ∈ subtreeIds s nid then { p with alive := false } else p)
        port_values := s.port_values.map
          (fun v => if v.port_id ∈ subtreePortIds s nid then { v with alive := false } else v)
        edges := s.edges.map (fun e =>
          if e.from_port_id ∈ subtreePortIds s nid ∨ e.to_port_id ∈ subtreePortIds s nid then
            { e with alive := false } else e)
        tags := s.tags.map (fun t =>
          if t.node_id ∈ subtreeIds s nid then { t with alive := false } else t) } with hs1
    have hnodes1 : s1.nodes = s.nodes.map (fun n =>
        if n.id ∈ subtreeIds s nid then { n with alive := false } else n) := rfl
    have hports1 : s1.ports = s.ports.map (fun p =>
        if p.node_id ∈ subtreeIds s nid then { p with alive := false } else p) := rfl
    have hvals1 : s1.port_values = s.port_values.map
        (fun v => if v.port_id ∈ subtreePortIds s nid then { v with alive := false } else v) :=
      rfl
    have hedges1 : s1.edges = s.edges.map (fun e =>
        if e.from_port_id ∈ subtreePortIds s nid ∨ e.to_port_id ∈ subtreePortIds s nid then
          { e with alive := false } else e) := rfl
    have htags1 : s1.tags = s.tags.map (fun t =>
        if t.node_id ∈ subtreeIds s nid then { t with alive := false } else t) := rfl
    have hshape1 : ∀ n : NodeRow, ∃ b,
        (if n.id ∈ subtreeIds s nid then ({ n with alive := false } : NodeRow) else n)
          = { n with alive := b } := by
      intro n
      by_cases h : n.id ∈ subtreeIds s nid
      · exact ⟨false, by rw [if_pos h]⟩
      · exact ⟨n.alive, by rw [if_neg h]⟩
    have hsub1 : subtreeIds s1 nid = subtreeIds s nid :=
      subtreeIds_eq_of_map s s1 _ hshape1 hnodes1 nid
    have hex2 : ∃ n ∈ s1.nodes, n.id = nid := by
      obtain ⟨x, hx, hxid⟩ := hex
      refine ⟨(fun n => if n.id ∈ subtreeIds s nid then { n with alive := false } else n) x,
        ?_, ?_⟩
      · rw [hnodes1]; exact List.mem_map_of_mem _ hx
      · show (if x.id ∈ subtreeIds s nid then ({ x with alive := false } : NodeRow) else x).id
          = nid
        rw [iteNode_id]; exact hxid
    have hn2 : ∀ n ∈ s1.nodes, n.id ∈ subtreeIds s1 nid → n.alive = !true := by
      intro n hmem hin
      rw [hsub1] at hin
      rw [hnodes1] at hmem
      obtain ⟨m₀, _, rfl⟩ := List.mem_map.mp hmem
      rw [iteNode_id] at hin
      show (if m₀.id ∈ subtreeIds s nid then ({ m₀ with alive := false } : NodeRow) else m₀).alive
        = !true
      rw [if_pos hin]
      rfl
    have hR2 : cascadeSet s1 nid true = subtreeIds s nid :=
      (cascadeSet_eq_subtree s1 nid true hex2 hn2).trans hsub1
    have hmem2 : nid ∈ cascadeSet s1 nid true := by
      rw [hR2]; exact mem_subtreeIds_self s nid
    have hpq2 : ∀ p : PortRow,
        (decide ((if p.node_id ∈ subtreeIds s nid then ({ p with alive := false } : PortRow)
            else p).node_id ∈ subtreeIds s nid)
          && ((if p.node_id ∈ subtreeIds s nid then ({ p with alive := false } : PortRow)
            else p).alive == !true))
        = decide (p.node_id ∈ subtreeIds s nid) := by
      intro p
      by_cases h : p.node_id ∈ subtreeIds s nid
      · rw [if_pos h]
        simp [h]
      · rw [if_neg h]
        simp [h]
    have hg2 : ∀ p : PortRow,
        (if p.node_id ∈ subtreeIds s nid then ({ p with alive := false } : PortRow) else p).id
          = p.id := by
      intro p
      exact itePort_id _ _ _
    have hT2 : (s1.ports.filter (fun p =>
        decide (p.node_id ∈ subtreeIds s nid) && (p.alive == !true))).map (·.id)
        = subtreePortIds s nid := by
      rw [hports1]
      rw [filterMapAfter
        (fun p => if p.node_id ∈ subtreeIds s nid then { p with alive := false } else p)
        (fun p => decide (p.node_id ∈ subtreeIds s nid) && (p.alive == !true))
        (fun p => decide (p.node_id ∈ subtreeIds s nid))
        (fun p => p.id) hpq2 hg2 s.ports]
      rfl
    rw [setAlive_eq_applyCascade s1 nid true hmem2, hR2,
      applyCascade_expand s1 (subtreeIds s nid) (subtreePortIds s nid) true hT2]
    rw [hnodes1, hports1, hvals1, hedges1, htags1]
    have hnodesRT : (s.nodes.map (fun n =>
        if n.id ∈ subtreeIds s nid then { n with alive := false } else n)).map
          (fun n => if n.id ∈ subtreeIds s nid then { n with alive := true } else n)
        = s.nodes := by
      rw [List.map_map]
      apply mapIdOn
      intro n hnmem
      show (fun m => if m.id ∈ subtreeIds s nid then { m with alive := true } else m)
        (if n.id ∈ subtreeIds s nid then ({ n with alive := false } : NodeRow) else n) = n
      by_cases h : n.id ∈ subtreeIds s nid
      · rw [if_pos h]
        show (if ({ n with alive := false } : NodeRow).id ∈ subtreeIds s nid
          then { ({ n with alive := false } : NodeRow) with alive := true }
          else ({ n with alive := false } : NodeRow)) = n
        rw [if_pos (show ({ n with alive := false } : NodeRow).id ∈ subtreeIds s nid from h)]
        exact nodeRow_update_self n true (hn n hnmem h)
      · rw [if_neg h]
        show (if n.id ∈ subtreeIds s nid then ({ n with alive := true } : NodeRow) else n) = n
        rw [if_neg h]
    have hportsRT : (s.ports.map (fun p =>
        if p.node_id ∈ subtreeIds s nid then { p with alive := false } else p)).map
          (fun p => if p.node_id ∈ subtreeIds s nid then { p with alive := true } else p)
        = s.ports := by
      rw [List.map_map]
      apply mapIdOn
      intro p hpmem
      show (fun q => if q.node_id ∈ subtreeIds s nid then { q with alive := true } else q)
        (if p.node_id ∈ subtreeIds s nid then ({ p with alive := false } : PortRow) else p) = p
      by_cases h : p.node_id ∈ subtreeIds s nid
      · rw [if_pos h]
        show (if ({ p with alive := false } : PortRow).node_id ∈ subtreeIds s nid
          then { ({ p with alive := false } : PortRow) with alive := true }
          else ({ p with alive := false } : PortRow)) = p
        rw [if_pos
          (show ({ p with alive := false } : PortRow).node_id ∈ subtreeIds s nid from h)]
        exact portRow_update_self p true (hp p hpmem h)
      · rw [if_neg h]
        show (if p.node_id ∈ subtreeIds s nid then ({ p with alive := true } : PortRow) else p)
          = p
        rw [if_neg h]
    have hvalsRT : (s.port_values.map (fun v =>
        if v.port_id ∈ subtreePortIds s nid then { v with alive := false } else v)).map
          (fun v => if v.port_id ∈ subtreePortIds s nid then { v with alive := true } else v)
        = s.port_values := by
      rw [List.map_map]
      apply mapIdOn
      intro v hvmem
      show (fun w => if w.port_id ∈ subtreePortIds s nid then { w with alive := true } else w)
        (if v.port_id ∈ subtreePortIds s nid then ({ v with alive := false } : PortValueRow)
          else v) = v
      by_cases h : v.port_id ∈ subtreePortIds s nid
      · rw [if_pos h]
        show (if ({ v with alive := false } : PortValueRow).port_id ∈ subtreePortIds s nid
          then { ({ v with alive := false } : PortValueRow) with alive := true }
          else ({ v with alive := false } : PortValueRow)) = v
        rw [if_pos
          (show ({ v with alive := false } : PortValueRow).port_id ∈ subtreePortIds s nid
            from h)]
        exact valueRow_update_self v true (hv v hvmem h)
      · rw [if_neg h]
        show (if v.port_id ∈ subtreePortIds s nid then ({ v with alive := true } : PortValueRow)
          else v) = v
        rw [if_neg h]
    have hedgesRT : (s.edges.map (fun e =>
        if e.from_port_id ∈ subtreePortIds s nid ∨ e.to_port_id ∈ subtreePortIds s nid then
          { e with alive := false } else e)).map
          (fun e =>
            if e.from_port_id ∈ subtreePortIds s nid ∨ e.to_port_id ∈ subtreePortIds s nid then
              { e with alive := true } else e)
        = s.edges := by
      rw [List.map_map]
      apply mapIdOn
      intro e hemem
      show (fun d =>
          if d.from_port_id ∈ subtreePortIds s nid ∨ d.to_port_id ∈ subtreePortIds s nid then
            { d with alive := true } else d)
        (if e.from_port_id ∈ subtreePortIds s nid ∨ e.to_port_id ∈ subtreePortIds s nid then
          ({ e with alive := false } : EdgeRow) else e) = e
      by_cases h : e.from_port_id ∈ subtreePortIds s nid ∨ e.to_port_id ∈ subtreePortIds s nid
      · rw [if_pos h]
        show (if ({ e with alive := false } : EdgeRow).from_port_id ∈ subtreePortIds s nid
            ∨ ({ e with alive := false } : EdgeRow).to_port_id ∈ subtreePortIds s nid
          then { ({ e with alive := false } : EdgeRow) with alive := true }
          else ({ e with alive := false } : EdgeRow)) = e
        rw [if_pos (show ({ e with alive := false } : EdgeRow).from_port_id ∈ subtreePortIds s nid
            ∨ ({ e with alive := false } : EdgeRow).to_port_id ∈ subtreePortIds s nid from h)]
        exact edgeRow_update_self e true (he e hemem h)
      · rw [if_neg h]
        show (if e.from_port_id ∈ subtreePortIds s nid ∨ e.to_port_id ∈ subtreePortIds s nid
          then ({ e with alive := true } : EdgeRow) else e) = e
        rw [if_neg h]
    have htagsRT : (s.tags.map (fun t =>
        if t.node_id ∈ subtreeIds s nid then { t with alive := false } else t)).map
          (fun t => if t.node_id ∈ subtreeIds s nid then { t with alive := true } else t)
        = s.tags := by
      rw [List.map_map]
      apply mapIdOn
      intro t htmem
      show (fun u => if u.node_id ∈ subtreeIds s nid then { u with alive := true } else u)
        (if t.node_id ∈ subtreeIds s nid then ({ t with alive := false } : TagRow) else t) = t
      by_cases h : t.node_id ∈ subtreeIds s nid
      · rw [if_pos h]
        show (if ({ t with alive := false } : TagRow).node_id ∈ subtreeIds s nid
          then { ({ t with alive := false } : TagRow) with alive := true }
          else ({ t with alive := false } : TagRow)) = t
        rw [if_pos (show ({ t with alive := false } : TagRow).node_id ∈ subtreeIds s nid from h)]
        exact tagRow_update_self t true (ht t htmem h)
      · rw [if_neg h]
        show (if t.node_id ∈ subtreeIds s nid then ({ t with alive := true } : TagRow) else t)
          = t
        rw [if_neg h]
    rw [hnodesRT, hportsRT, hvalsRT, hedgesRT, htagsRT]
  · -- restore reaches exactly the dead-chain closure: node rows
    intro m hm hin
    have hrepr : (setAlive s' nid' true).nodes
        = (s'.nodes.map (fun n =>
            if n.id ∈ cascadeSet s' nid' true then { n with alive := true } else n)).map
          (fun n => if n.id = nid' then { n with alive := true } else n) := rfl
    rw [hrepr] at hm
    obtain ⟨m₁, hm₁, rfl⟩ := List.mem_map.mp hm
    obtain ⟨m₀, _, rfl⟩ := List.mem_map.mp hm₁
    rw [iteNode_id, iteNode_id] at hin
    rw [if_pos hin]
    show (if ({ m₀ with alive := true } : NodeRow).id = nid'
      then { ({ m₀ with alive := true } : NodeRow) with alive := true }
      else ({ m₀ with alive := true } : NodeRow)).alive = true
    split
    · rfl
    · rfl
  · -- restore reaches exactly the dead-chain closure: tag rows
    intro t htm hin
    have hrepr : (setAlive s' nid' true).tags
        = s'.tags.map (fun u =>
            if u.node_id ∈ cascadeSet s' nid' true then { u with alive := true } else u) := rfl
    rw [hrepr] at htm
    obtain ⟨u₀, _, rfl⟩ := List.mem_map.mp htm
    rw [iteTag_node_id] at hin
    rw [if_pos hin]

/-- C2 witness: on `sAll` the delete/restore round trip is the identity, and
on `sPrune` the restore revives exactly its dead-chain closure. -/
theorem c2_witness :
    setAlive (setAlive sAll "a" false) "a" true = sAll ∧
    (∀ m ∈ (setAlive sPrune "a" true).nodes, m.id ∈ cascadeSet sPrune "a" true →
      m.alive = true) ∧
    (∀ t ∈ (setAlive sPrune "a" true).tags, t.node_id ∈ cascadeSet sPrune "a" true →
      t.alive = true) :=
  c2_roundtrip_restores_alive_subtree sAll sPrune "a" "a"
    (by decide) (by decide) (by decide) (by decide) (by decide) (by decide)

/-! ## Claim C3: the multi-tag AND search -/

/-- A list over a two-element alphabet has two distinct members iff both
letters occur. -/
theorem dedup_length_two {k1 k2 : String} (hk : ¬ k1 = k2) (l : List String)
    (hsub : ∀ x ∈ l, x = k1 ∨ x = k2) :
    l.dedup.length = 2 ↔ (k1 ∈ l ∧ k2 ∈ l) := by
  have hsubF : l.toFinset ⊆ {k1, k2} := by
    intro x hx
    rcases hsub x (List.mem_toFinset.mp hx) with rfl | rfl
    · exact Finset.mem_insert_self _ _
    · exact Finset.mem_insert_of_mem (Finset.mem_singleton_self _)
  constructor
  · intro hlen
    have hcard : l.toFinset.card = 2 := by rw [List.card_toFinset, hlen]
    have heq : l.toFinset = {k1, k2} :=
      Finset.eq_of_subset_of_card_le hsubF (by rw [Finset.card_pair hk, hcard])
    constructor
    · exact List.mem_toFinset.mp (by rw [heq]; exact Finset.mem_insert_self k1 {k2})
    · exact List.mem_toFinset.mp
        (by rw [heq]; exact Finset.mem_insert_of_mem (Finset.mem_singleton_self k2))
  · intro h12
    have heq : l.toFinset = {k1, k2} := by
      apply Finset.Subset.antisymm hsubF
      intro x hx
      rcases Finset.mem_insert.mp hx with rfl | hx2
      · exact List.mem_toFinset.mpr h12.1
      · rw [Finset.mem_singleton] at hx2
        subst hx2
        exact List.mem_toFinset.mpr h12.2
    rw [← List.card_toFinset, heq, Finset.card_pair hk]

/-- C3 counterexample: soft-deleted tags do match (node `x` of `sTagCex`
carries only dead tags yet is returned), and two predicates sharing a key are
never both counted (`HAVING COUNT(DISTINCT tag_key) = n` reaches at most 1
for one key, so node `y` is missed although it carries both alive tags). -/
theorem c3_counterexample :
    ("x" ∈ findByTagsAnd sTagCex [("k1", "v1"), ("k2", "v2")]) ∧
    (∀ t ∈ sTagCex.tags, t.node_id = "x" → t.alive = false) ∧
    (findByTagsAnd sTagCex [("k", "a"), ("k", "b")] = []) ∧
    (∃ t ∈ sTagCex.tags, t.node_id = "y" ∧ t.tag_key = "k" ∧ t.tag_value = "a"
      ∧ t.alive = true) ∧
    (∃ t ∈ sTagCex.tags, t.node_id = "y" ∧ t.tag_key = "k" ∧ t.tag_value = "b"
      ∧ t.alive = true) := by decide

/-- C3 amended: for two predicates with distinct keys,
`FindByTags([(k1,v1),(k2,v2)], nil)` returns exactly the node ids carrying a
tag `(k1,v1)` and a tag `(k2,v2)` *in any alive state* — the query has no
`deleted_at` condition, so soft-deleted tags contribute matches too.  (The
grouped count is of distinct matched keys, hence the distinct-key proviso.) -/
theorem c3_two_tag_search (s : Store) (k1 v1 k2 v2 nid : String) (hk : ¬ k1 = k2) :
    nid ∈ findByTagsAnd s [(k1, v1), (k2, v2)] ↔
      ((∃ t ∈ s.tags, t.node_id = nid ∧ t.tag_key = k1 ∧ t.tag_value = v1) ∧
       (∃ t ∈ s.tags, t.node_id = nid ∧ t.tag_key = k2 ∧ t.tag_value = v2)) := by
  have hMchar : ∀ t : TagRow, (t ∈ s.tags.filter (fun u => ([(k1, v1), (k2, v2)]).any
      (fun kv => decide (u.tag_key = kv.1) && decide (u.tag_value = kv.2)))) ↔
      (t ∈ s.tags ∧
        ((t.tag_key = k1 ∧ t.tag_value = v1) ∨ (t.tag_key = k2 ∧ t.tag_value = v2))) := by
    intro t
    rw [List.mem_filter]
    constructor
    · rintro ⟨h1, h2⟩
      refine ⟨h1, ?_⟩
      simpa using h2
    · rintro ⟨h1, h2⟩
      refine ⟨h1, ?_⟩
      simpa using h2
  have hkeymem : ∀ x : String,
      x ∈ ((s.tags.filter (fun u => ([(k1, v1), (k2, v2)]).any
          (fun kv => decide (u.tag_key = kv.1) && decide (u.tag_value = kv.2)))).filter
            (fun t => decide (t.node_id = nid))).map (fun t => t.tag_key) ↔
      (∃ t ∈ s.tags, t.node_id = nid ∧ t.tag_key = x ∧
        ((t.tag_key = k1 ∧ t.tag_value = v1) ∨ (t.tag_key = k2 ∧ t.tag_value = v2))) := by
    intro x
    rw [List.mem_map]
    constructor
    · rintro ⟨t, htm, rfl⟩
      have hnode := List.of_mem_filter htm
      simp only [decide_eq_true_eq] at hnode
      have h := (hMchar t).mp (List.mem_of_mem_filter htm)
      exact ⟨t, h.1, hnode, rfl, h.2⟩
    · rintro ⟨t, hts, hnode, hkey, hdis⟩
      exact ⟨t, List.mem_filter.mpr ⟨(hMchar t).mpr ⟨hts, hdis⟩, by simp [hnode]⟩, hkey⟩
  have hsub : ∀ x ∈ ((s.tags.filter (fun u => ([(k1, v1), (k2, v2)]).any
      (fun kv => decide (u.tag_key = kv.1) && decide (u.tag_value = kv.2)))).filter
        (fun t => decide (t.node_id = nid))).map (fun t => t.tag_key),
      x = k1 ∨ x = k2 := by
    intro x hx
    rcases (hkeymem x).mp hx with ⟨t, _, _, hkey, hdis⟩
    rcases hdis with ⟨hkk, _⟩ | ⟨hkk, _⟩
    · exact Or.inl (hkey ▸ hkk)
    · exact Or.inr (hkey ▸ hkk)
  have hk1m : (k1 ∈ ((s.tags.filter (fun u => ([(k1, v1), (k2, v2)]).any
      (fun kv => decide (u.tag_key = kv.1) && decide (u.tag_value = kv.2)))).filter
        (fun t => decide (t.node_id = nid))).map (fun t => t.tag_key)) ↔
      (∃ t ∈ s.tags, t.node_id = nid ∧ t.tag_key = k1 ∧ t.tag_value = v1) := by
    rw [hkeymem k1]
    constructor
    · rintro ⟨t, hts, hnode, hkey, hdis⟩
      rcases hdis with ⟨_, hvv⟩ | ⟨hkk, _⟩
      · exact ⟨t, hts, hnode, hkey, hvv⟩
      · exact absurd (hkey.symm.trans hkk) hk
    · rintro ⟨t, hts, hnode, hkey, hval⟩
      exact ⟨t, hts, hnode, hkey, Or.inl ⟨hkey, hval⟩⟩
  have hk2m : (k2 ∈ ((s.tags.filter (fun u => ([(k1, v1), (k2, v2)]).any
      (fun kv => decide (u.tag_key = kv.1) && decide (u.tag_value = kv.2)))).filter
        (fun t => decide (t.node_id = nid))).map (fun t => t.tag_key)) ↔
      (∃ t ∈ s.tags, t.node_id = nid ∧ t.tag_key = k2 ∧ t.tag_value = v2) := by
    rw [hkeymem k2]
    constructor
    · rintro ⟨t, hts, hnode, hkey, hdis⟩
      rcases hdis with ⟨hkk, _⟩ | ⟨_, hvv⟩
      · exact absurd (hkk.symm.trans hkey) hk
      · exact ⟨t, hts, hnode, hkey, hvv⟩
    · rintro ⟨t, hts, hnode, hkey, hval⟩
      exact ⟨t, hts, hnode, hkey, Or.inr ⟨hkey, hval⟩⟩
  unfold findByTagsAnd
  rw [List.mem_filter, List.mem_dedup]
  constructor
  · rintro ⟨_, hcnt⟩
    rw [decide_eq_true_eq] at hcnt
    have h12 := (dedup_length_two hk _ hsub).mp hcnt
    exact ⟨hk1m.mp h12.1, hk2m.mp h12.2⟩
  · rintro ⟨h1, h2⟩
    constructor
    · obtain ⟨t, hts, hnode, hkey, hval⟩ := h1
      exact List.mem_map.mpr ⟨t, (hMchar t).mpr ⟨hts, Or.inl ⟨hkey, hval⟩⟩, hnode⟩
    · rw [decide_eq_true_eq]
      exact (dedup_length_two hk _ hsub).mpr ⟨hk1m.mpr h1, hk2m.mpr h2⟩

/-- C3 witness: in `sTagW`, `x` carries alive tags `(k1,v1)` and `(k2,v2)`
and is found; the iff also excludes `z`, which carries only `(k1,v1)`. -/
theorem c3_witness :
    ("x" ∈ findByTagsAnd sTagW [("k1", "v1"), ("k2", "v2")]) ∧
    ¬ ("z" ∈ findByTagsAnd sTagW [("k1", "v1"), ("k2", "v2")]) := by
  constructor
  · exact (c3_two_tag_search sTagW "k1" "v1" "k2" "v2" "x" (by decide)).mpr
      ⟨by decide, by decide⟩
  · intro hzin
    have h := (c3_two_tag_search sTagW "k1" "v1" "k2" "v2" "z" (by decide)).mp hzin
    have h2 := h.2
    revert h2
    decide

/-! ## Claim C8: no write-time cycle rejection -/

/-- C8 counterexample: the only write-time check the schema declares on a
parent assignment is the foreign key, and `a` is an existing id, so the
assignment `a.parent_id := a` is *accepted* — and the resulting store has a
cycle in the `parent_id` chain.  Nothing in the schema or triggers rejects
cycle-creating parent assignments. -/
theorem c8_counterexample :
    setParent sSelf "a" "a" = some sSelfCycle ∧ ¬ Acyclic sSelfCycle := by
  constructor
  · decide
  · rintro ⟨rank, hr⟩
    have h := hr ⟨"a", "network", some "a", "A", "", true⟩ (by decide) "a" rfl
    exact absurd h (lt_irrefl _)

/-- C8 amended: the schema enforces only referential integrity on
`parent_id`; cycle freedom is not checked at write time (see the
counterexample).  The populate path only ever performs the one safe parent
assignment — inserting a node with a fresh id under an existing parent — and
that insertion does preserve acyclicity whenever no existing row already
names the fresh id as its parent. -/
theorem c8_fresh_insert_preserves_acyclic (s : Store) (n : NodeRow) (s' : Store)
    (h1 : insertNode s n = some s')
    (h2 : ∀ m ∈ s.nodes, ¬ m.parent_id = some n.id)
    (h3 : Acyclic s) : Acyclic s' := by
  unfold insertNode at h1
  by_cases hcond : ((s.nodes.all (fun m => !(decide (m.id = n.id)))) &&
      (match n.parent_id with
       | some p => s.nodes.any (fun m => decide (m.id = p))
       | none => true)) = true
  · rw [if_pos hcond] at h1
    injection h1 with h1'
    rw [Bool.and_eq_true] at hcond
    obtain ⟨hall, hfk⟩ := hcond
    have hfresh : ∀ m ∈ s.nodes, ¬ m.id = n.id := by
      intro m hm
      have h := List.all_eq_true.mp hall m hm
      simpa using h
    obtain ⟨rank, hr⟩ := h3
    cases hpar : n.parent_id with
    | some p =>
      have hfk' : s.nodes.any (fun m => decide (m.id = p)) = true := by
        rw [hpar] at hfk
        exact hfk
      obtain ⟨mp, hmp, hmpid⟩ := List.any_eq_true.mp hfk'
      simp only [decide_eq_true_eq] at hmpid
      have hpne : ¬ p = n.id := fun h => hfresh mp hmp (hmpid.trans h)
      refine ⟨fun x => if x = n.id then rank p + 1 else rank x, ?_⟩
      intro m hm q hq
      rw [← h1'] at hm
      rcases List.mem_append.mp hm with hm' | hm'
      · have hmne : ¬ m.id = n.id := hfresh m hm'
        have hqne : ¬ q = n.id := by
          intro hqe
          exact h2 m hm' (by rw [hq, hqe])
        show (if q = n.id then rank p + 1 else rank q)
          < (if m.id = n.id then rank p + 1 else rank m.id)
        rw [if_neg hqne, if_neg hmne]
        exact hr m hm' q hq
      · have hmn := List.mem_singleton.mp hm'
        subst hmn
        rw [hpar] at hq
        injection hq with hq'
        subst hq'
        show (if p = m.id then rank p + 1 else rank p)
          < (if m.id = m.id then rank p + 1 else rank m.id)
        rw [if_neg hpne, if_pos rfl]
        exact Nat.lt_succ_self _
    | none =>
      refine ⟨fun x => if x = n.id then 0 else rank x, ?_⟩
      intro m hm q hq
      rw [← h1'] at hm
      rcases List.mem_append.mp hm with hm' | hm'
      · have hmne : ¬ m.id = n.id := hfresh m hm'
        have hqne : ¬ q = n.id := by
          intro hqe
          exact h2 m hm' (by rw [hq, hqe])
        show (if q = n.id then 0 else rank q) < (if m.id = n.id then 0 else rank m.id)
        rw [if_neg hqne, if_neg hmne]
        exact hr m hm' q hq
      · have hmn := List.mem_singleton.mp hm'
        subst hmn
        rw [hpar] at hq
        exact Option.noConfusion hq
  · rw [if_neg hcond] at h1
    exact Option.noConfusion h1

/-- C8 witness: inserting the fresh row `b` under the existing root `a` is
accepted and keeps the store acyclic. -/
theorem c8_witness : insertNode sSelf rowB = some sSelfB ∧ Acyclic sSelfB := by
  constructor
  · decide
  · refine c8_fresh_insert_preserves_acyclic sSelf rowB sSelfB (by decide) (by decide) ?_
    refine ⟨fun _ => 0, ?_⟩
    intro m hm p hp
    have hmn := List.mem_singleton.mp hm
    subst hmn
    exact Option.noConfusion hp
